import Mathlib

/-!
Shallow embedding of the edit-history engine, document registry and plugin
registry of `open-scd.ts` (class `OpenSCD`), for verification of its
specification.  `handleEdit` and `convertEdit` come from the external
`@openenergytools/xml-lib` package and are abstracted: an `Applier` takes the
current document world and an edit, mutates the world and returns the inverse
edit, exactly the contract the class relies on.
-/

namespace OscdCore

/-- Type `EditV2` from xml-lib as used by `open-scd.ts`: either an atomic edit
(Insert / Remove / SetAttributes / SetTextContent, abstracted here by an
identifier) or an array of edits.  Only the array structure is inspected by
the history engine (the `instanceof Array` tests in `squashUndo`/`squashRedo`). -/
inductive EditV2 : Type where
  | atomic (id : Nat) : EditV2
  | complex (edits : List EditV2) : EditV2
  deriving Inhabited

/-- Type `LogEntry` from `open-scd.ts`: `{ undo: EditV2; redo: EditV2; title?: string }`. -/
structure LogEntry : Type where
  undo : EditV2
  redo : EditV2
  title : Option String := none
  deriving Inhabited

/-- Abstraction of the xml-lib function `handleEdit`: it mutates the live document world
(type `W`) and returns the inverse edit.  `open-scd.ts` only ever calls it and
threads its results; its internals live outside this repository. -/
def Applier (W : Type u) : Type u := W → EditV2 → W × EditV2

/-- State of the `OpenSCD` element relevant to the history engine and document
registry.  `world` stands for the mutable document heap `handleEdit` acts on;
`docs` is the name-to-document record (`this.docs`), modelled as an
association list whose lookup yields `none` where JavaScript yields
`undefined`. -/
structure OpenSCD (W : Type u) (X : Type v) : Type (max u v) where
  history : List LogEntry := []
  docVersion : Nat := 0
  editCount : Nat := 0
  docs : List (String × X) := []
  docName : String := ""
  world : W

variable {W : Type u} {X : Type v}

/-- Getter `last`: `this.editCount - 1` (a JavaScript number, so signed). -/
def OpenSCD.last (s : OpenSCD W X) : Int := (s.editCount : Int) - 1

/-- Getter `canUndo`: `this.last >= 0`. -/
def OpenSCD.canUndo (s : OpenSCD W X) : Bool := decide (0 ≤ s.last)

/-- Getter `canRedo`: `this.editCount < this.history.length`. -/
def OpenSCD.canRedo (s : OpenSCD W X) : Bool := decide (s.editCount < s.history.length)

/-- Getter `doc`: `this.docs[this.docName]`.  Property access on a missing key
returns `undefined` in JavaScript, embedded here as `none`. -/
def OpenSCD.doc (s : OpenSCD W X) : Option X := s.docs.lookup s.docName

/-- JavaScript `a || b` for an optional string `a`: both an absent and an
empty string are falsy and fall through to `b`. -/
def jsOr (a b : Option String) : Option String :=
  match a with
  | none => b
  | some t => if t = "" then b else some t

/-- Method `handleEditEvent` (legacy path): splice the history at `editCount`, push
`{ undo: handleEdit(editV2), redo: editV2 }`, increment `editCount` and the
document version.  The argument is the already converted edit
(`convertEdit(event.detail)`; `convertEdit` is external xml-lib code). -/
def OpenSCD.handleEditEvent (A : Applier W) (s : OpenSCD W X) (editV2 : EditV2) :
    OpenSCD W X :=
  let h := s.history.take s.editCount
  let r := A s.world editV2
  { s with
    history := h ++ [{ undo := r.2, redo := editV2 }]
    editCount := s.editCount + 1
    docVersion := s.docVersion + 1
    world := r.1 }

/-- Method `squashUndo(undoEdits)`: combine the new undo edits with the undo edits of
the last history entry, new ones first; the four cases mirror the
`instanceof Array` tests of the source. -/
def OpenSCD.squashUndo (history : List LogEntry) (undoEdits : EditV2) : EditV2 :=
  match history.getLast? with
  | none => undoEdits
  | some lastHistory =>
    match lastHistory.undo, undoEdits with
    | .complex lastUndo, .complex ue => .complex (ue ++ lastUndo)
    | .complex lastUndo, .atomic a => .complex (.atomic a :: lastUndo)
    | .atomic a, .complex ue => .complex (ue ++ [.atomic a])
    | .atomic a, .atomic b => .complex [.atomic b, .atomic a]

/-- Method `squashRedo(edits)`: combine the redo edits of the last history entry with
the new redo edits, old ones first; the four cases mirror the
`instanceof Array` tests of the source. -/
def OpenSCD.squashRedo (history : List LogEntry) (edits : EditV2) : EditV2 :=
  match history.getLast? with
  | none => edits
  | some lastHistory =>
    match lastHistory.redo, edits with
    | .complex lastRedo, .complex e => .complex (lastRedo ++ e)
    | .complex lastRedo, .atomic a => .complex (lastRedo ++ [.atomic a])
    | .atomic a, .complex e => .complex (.atomic a :: e)
    | .atomic a, .atomic b => .complex [.atomic a, .atomic b]

/-- Method `handleEditEventV2`: splice the history at `editCount`, compute the undo
and redo (squash-combined when `squash` is set), compute the log title with
the `title || lastEntry?.title` fallback, pop the last entry when squashing,
push the new entry, set `editCount` to the new history length and bump the
document version. -/
def OpenSCD.handleEditEventV2 (A : Applier W) (s : OpenSCD W X)
    (edit : EditV2) (title : Option String) (squash : Bool) : OpenSCD W X :=
  let h := s.history.take s.editCount
  let r := A s.world edit
  let undo := if squash then OpenSCD.squashUndo h r.2 else r.2
  let redo := if squash then OpenSCD.squashRedo h edit else edit
  let logTitle := jsOr title (h.getLast?.bind LogEntry.title)
  let h2 := if squash then h.dropLast else h
  let newHistory := h2 ++ [{ undo := undo, redo := redo, title := logTitle }]
  { s with
    history := newHistory
    editCount := newHistory.length
    docVersion := s.docVersion + 1
    world := r.1 }

/-- Method `undo(n = 1)`: return if `!canUndo || n < 1`; otherwise re-apply
`history[last].undo` through the applier, decrement `editCount`, bump the
version and recurse with `n - 1`. -/
def OpenSCD.undo (A : Applier W) (s : OpenSCD W X) : Nat → OpenSCD W X
  | 0 => s
  | n + 1 =>
    if s.canUndo then
      let r := A s.world ((s.history.getD (s.editCount - 1) default).undo)
      OpenSCD.undo A
        { s with
          world := r.1
          editCount := s.editCount - 1
          docVersion := s.docVersion + 1 } n
    else s

/-- Method `redo(n = 1)`: return if `!canRedo || n < 1`; otherwise re-apply
`history[editCount].redo` through the applier, increment `editCount`, bump the
version and recurse with `n - 1`. -/
def OpenSCD.redo (A : Applier W) (s : OpenSCD W X) : Nat → OpenSCD W X
  | 0 => s
  | n + 1 =>
    if s.canRedo then
      let r := A s.world ((s.history.getD s.editCount default).redo)
      OpenSCD.redo A
        { s with
          world := r.1
          editCount := s.editCount + 1
          docVersion := s.docVersion + 1 } n
    else s

/-- Plugin descriptor from `foundation/plugin-event.ts` (the `translations`
record is irrelevant to the registry logic and omitted). -/
structure Plugin where
  name : String
  src : String
  icon : String
  requireDoc : Bool := false
  active : Bool := true
  deriving Repr, DecidableEq, Inhabited

/-- State touched by `pluginTag` and `loadPlugin`: the module-level memo map
`pluginTags`, the private `#loadedPlugins` map of the element, the set of custom-element
tags already defined, and the dynamic module imports triggered so far
(the `import(url).then(...)` calls), recorded by tag in order. -/
structure PluginState where
  pluginTags : List (String × String) := []
  loadedPlugins : List (String × Plugin) := []
  defined : List String := []
  imports : List String := []
  deriving Repr, DecidableEq, Inhabited

/-- Function `pluginTag(uri)` with the module-level memo map made explicit: if
the map has no entry for `uri`, insert `oscd-p` followed by the URI hash, then
return the mapped tag.  `cyrb64` lives in `foundation.ts`, which is not among
the provided sources; it is abstracted as the parameter `h` (a Lean function,
hence deterministic, as the spec requires of the hash). -/
def pluginTag (h : String → String) (tags : List (String × String)) (uri : String) :
    List (String × String) × String :=
  match tags.lookup uri with
  | some t => (tags, t)
  | none => (tags ++ [(uri, "oscd-p" ++ h uri)], "oscd-p" ++ h uri)

/-- Method `loadPlugin(plugin)`: compute the tag; return if `#loadedPlugins`
already has it; otherwise record the descriptor, and unless the custom element
is already defined, trigger the dynamic module import for the tag. -/
def loadPlugin (h : String → String) (st : PluginState) (p : Plugin) : PluginState :=
  let r := pluginTag h st.pluginTags p.src
  let tagName := r.2
  let st1 : PluginState := { st with pluginTags := r.1 }
  if (st1.loadedPlugins.lookup tagName).isSome then st1
  else
    let st2 : PluginState := { st1 with loadedPlugins := st1.loadedPlugins ++ [(tagName, p)] }
    if st2.defined.contains tagName then st2
    else { st2 with imports := st2.imports ++ [tagName] }

/-- The four externally triggerable history operations: a legacy `oscd-edit`
event (already converted to `EditV2`), an `oscd-edit-v2` event, `undo(n)` and
`redo(n)`. -/
inductive Op : Type where
  | editV1 (e : EditV2)
  | editV2 (e : EditV2) (title : Option String) (squash : Bool)
  | undoN (n : Nat)
  | redoN (n : Nat)

/-- Dispatch one operation on the state. -/
def applyOp (A : Applier W) (s : OpenSCD W X) : Op → OpenSCD W X
  | .editV1 e => OpenSCD.handleEditEvent A s e
  | .editV2 e t b => OpenSCD.handleEditEventV2 A s e t b
  | .undoN n => OpenSCD.undo A s n
  | .redoN n => OpenSCD.redo A s n

/-- Initial state of a fresh `OpenSCD` element: empty history, zero counters,
no documents. -/
def initState (w : W) : OpenSCD W X := { world := w }

/-- Run a finite sequence of operations from the initial state. -/
def run (A : Applier W) (w : W) (ops : List Op) : OpenSCD W X :=
  ops.foldl (applyOp A) (initState w)

/-- Fold the world component of the applier over a list of edits. -/
def applySeq (A : Applier W) (w : W) (es : List EditV2) : W :=
  es.foldl (fun w e => (A w e).1) w

/-- The `k` stored undo edits that `undo` replays from cursor `ec`, newest
first: entries at indices `ec - 1`, `ec - 2`, ... -/
def undoTargets (hist : List LogEntry) (ec : Nat) : Nat → List EditV2
  | 0 => []
  | k + 1 => (hist.getD (ec - 1) default).undo :: undoTargets hist (ec - 1) k

/-- The `k` stored redo edits that `redo` replays from cursor `ec`, oldest
first: entries at indices `ec`, `ec + 1`, ... -/
def redoTargets (hist : List LogEntry) (ec : Nat) : Nat → List EditV2
  | 0 => []
  | k + 1 => (hist.getD ec default).redo :: redoTargets hist (ec + 1) k

/-- Flatten one edit to the list of edits the squash helpers spread it into:
an array stays itself, a non-array becomes a one-element list. -/
def asList : EditV2 → List EditV2
  | .complex l => l
  | .atomic a => [.atomic a]

/-- A concrete applier over a counting world, used to evaluate theorems on
concrete inputs. -/
def natApplier : Applier Nat := fun w e => (w + 1, e)

/-- A concrete log entry used to evaluate theorems on concrete inputs. -/
def sampleEntry (i : Nat) : LogEntry :=
  { undo := .atomic i, redo := .atomic i, title := some "entry" }

/-- A concrete state with two applied history entries, used to evaluate
theorems on concrete inputs. -/
def sampleState : OpenSCD Nat Nat :=
  { history := [sampleEntry 0, sampleEntry 1], editCount := 2, world := 0 }

/-- The plugin state of a fresh session: every map empty. -/
def emptyPluginState : PluginState := {}

/-! Helper lemmas about the stepping behaviour of `undo` and `redo`. -/

lemma undo_zero (A : Applier W) (s : OpenSCD W X) : OpenSCD.undo A s 0 = s := rfl

lemma redo_zero (A : Applier W) (s : OpenSCD W X) : OpenSCD.redo A s 0 = s := rfl

lemma undo_succ_pos (A : Applier W) (s : OpenSCD W X) (n : Nat)
    (h : s.canUndo = true) :
    OpenSCD.undo A s (n + 1) = OpenSCD.undo A
      { s with
        world := (A s.world ((s.history.getD (s.editCount - 1) default).undo)).1
        editCount := s.editCount - 1
        docVersion := s.docVersion + 1 } n := by
  simp [OpenSCD.undo, h]

lemma undo_succ_stop (A : Applier W) (s : OpenSCD W X) (n : Nat)
    (h : s.canUndo = false) : OpenSCD.undo A s (n + 1) = s := by
  simp [OpenSCD.undo, h]

lemma redo_succ_pos (A : Applier W) (s : OpenSCD W X) (n : Nat)
    (h : s.canRedo = true) :
    OpenSCD.redo A s (n + 1) = OpenSCD.redo A
      { s with
        world := (A s.world ((s.history.getD s.editCount default).redo)).1
        editCount := s.editCount + 1
        docVersion := s.docVersion + 1 } n := by
  simp [OpenSCD.redo, h]

lemma redo_succ_stop (A : Applier W) (s : OpenSCD W X) (n : Nat)
    (h : s.canRedo = false) : OpenSCD.redo A s (n + 1) = s := by
  simp [OpenSCD.redo, h]

lemma canUndo_true_iff (s : OpenSCD W X) : s.canUndo = true ↔ 1 ≤ s.editCount := by
  simp only [OpenSCD.canUndo, OpenSCD.last, decide_eq_true_eq]
  omega

lemma canRedo_true_iff (s : OpenSCD W X) :
    s.canRedo = true ↔ s.editCount < s.history.length := by
  simp only [OpenSCD.canRedo, decide_eq_true_eq]

/-- Full description of `undo(n)`: the history, the document registry and the
active-document name are untouched; exactly `min n editCount` steps run, each
decrementing the cursor and bumping the version, and the world receives the
stored undo edits newest first. -/
lemma undo_spec (A : Applier W) (n : Nat) (s : OpenSCD W X) :
    (OpenSCD.undo A s n).history = s.history ∧
    (OpenSCD.undo A s n).docs = s.docs ∧
    (OpenSCD.undo A s n).docName = s.docName ∧
    (OpenSCD.undo A s n).editCount = s.editCount - min n s.editCount ∧
    (OpenSCD.undo A s n).docVersion = s.docVersion + min n s.editCount ∧
    (OpenSCD.undo A s n).world
      = applySeq A s.world (undoTargets s.history s.editCount (min n s.editCount)) := by
  induction n generalizing s with
  | zero => simp [undo_zero, undoTargets, applySeq]
  | succ n ih =>
    by_cases h1 : 1 ≤ s.editCount
    · have hcu : s.canUndo = true := (canUndo_true_iff s).2 h1
      rw [undo_succ_pos A s n hcu]
      obtain ⟨ih1, ih2, ih3, ih4, ih5, ih6⟩ := ih
        { s with
          world := (A s.world ((s.history.getD (s.editCount - 1) default).undo)).1
          editCount := s.editCount - 1
          docVersion := s.docVersion + 1 }
      simp only at ih1 ih2 ih3 ih4 ih5 ih6
      have hmin : min (n + 1) s.editCount = min n (s.editCount - 1) + 1 := by omega
      refine ⟨by simpa using ih1, by simpa using ih2, by simpa using ih3, ?_, ?_, ?_⟩
      · rw [ih4]; omega
      · rw [ih5]; omega
      · rw [ih6, hmin]
        rfl
    · have hcu : s.canUndo = false := by
        rcases Bool.eq_false_or_eq_true s.canUndo with h | h
        · exact absurd ((canUndo_true_iff s).1 h) h1
        · exact h
      rw [undo_succ_stop A s n hcu]
      have h0 : s.editCount = 0 := by omega
      simp [h0, undoTargets, applySeq]

/-- Full description of `redo(n)`: the history, the document registry and the
active-document name are untouched; exactly `min n (length - editCount)` steps
run, each incrementing the cursor and bumping the version, and the world
receives the stored redo edits oldest first. -/
lemma redo_spec (A : Applier W) (n : Nat) (s : OpenSCD W X) :
    (OpenSCD.redo A s n).history = s.history ∧
    (OpenSCD.redo A s n).docs = s.docs ∧
    (OpenSCD.redo A s n).docName = s.docName ∧
    (OpenSCD.redo A s n).editCount
      = s.editCount + min n (s.history.length - s.editCount) ∧
    (OpenSCD.redo A s n).docVersion
      = s.docVersion + min n (s.history.length - s.editCount) ∧
    (OpenSCD.redo A s n).world
      = applySeq A s.world
          (redoTargets s.history s.editCount (min n (s.history.length - s.editCount))) := by
  induction n generalizing s with
  | zero => simp [redo_zero, redoTargets, applySeq]
  | succ n ih =>
    by_cases h1 : s.editCount < s.history.length
    · have hcr : s.canRedo = true := (canRedo_true_iff s).2 h1
      rw [redo_succ_pos A s n hcr]
      obtain ⟨ih1, ih2, ih3, ih4, ih5, ih6⟩ := ih
        { s with
          world := (A s.world ((s.history.getD s.editCount default).redo)).1
          editCount := s.editCount + 1
          docVersion := s.docVersion + 1 }
      simp only at ih1 ih2 ih3 ih4 ih5 ih6
      have hmin : min (n + 1) (s.history.length - s.editCount)
          = min n (s.history.length - (s.editCount + 1)) + 1 := by omega
      refine ⟨by simpa using ih1, by simpa using ih2, by simpa using ih3, ?_, ?_, ?_⟩
      · rw [ih4]; omega
      · rw [ih5]; omega
      · rw [ih6, hmin]
        rfl
    · have hcr : s.canRedo = false := by
        rcases Bool.eq_false_or_eq_true s.canRedo with h | h
        · exact absurd ((canRedo_true_iff s).1 h) h1
        · exact h
      rw [redo_succ_stop A s n hcr]
      have h0 : s.history.length - s.editCount = 0 := by omega
      simp [h0, redoTargets, applySeq]

/-! Helper lemmas about association-list lookup. -/

lemma lookup_eq_none_of_not_mem {β : Type v} (l : List (String × β)) (a : String)
    (h : a ∉ l.map Prod.fst) : l.lookup a = none := by
  induction l with
  | nil => rfl
  | cons x xs ih =>
    simp only [List.map_cons, List.mem_cons] at h
    push_neg at h
    have hb : (a == x.1) = false := by simpa using h.1
    simp [List.lookup, hb, ih h.2]

lemma lookup_append_of_none {β : Type v} (l l2 : List (String × β)) (a : String)
    (h : l.lookup a = none) : (l ++ l2).lookup a = l2.lookup a := by
  induction l with
  | nil => rfl
  | cons x xs ih =>
    by_cases hb : (a == x.1) = true
    · simp [List.lookup, hb] at h
    · simp only [Bool.not_eq_true] at hb
      simp only [List.cons_append, List.lookup, hb] at h ⊢
      exact ih h

lemma lookup_singleton_self {β : Type v} (x : String) (v : β) :
    ([(x, v)].lookup x) = some v := by
  simp [List.lookup]

/-- Preservation of the cursor bound by a single operation. -/
lemma applyOp_cursor_le (A : Applier W) (s : OpenSCD W X) (op : Op)
    (h : s.editCount ≤ s.history.length) :
    (applyOp A s op).editCount ≤ (applyOp A s op).history.length := by
  cases op with
  | editV1 e =>
    simp only [applyOp, OpenSCD.handleEditEvent, List.length_append,
      List.length_take, List.length_cons, List.length_nil]
    omega
  | editV2 e t b =>
    simp only [applyOp, OpenSCD.handleEditEventV2]
    exact Nat.le_refl _
  | undoN n =>
    obtain ⟨u1, -, -, u4, -, -⟩ := undo_spec A n s
    simp only [applyOp, u1, u4]
    omega
  | redoN n =>
    obtain ⟨r1, -, -, r4, -, -⟩ := redo_spec A n s
    simp only [applyOp, r1, r4]
    omega

/-- Preservation of the cursor bound by a whole operation sequence. -/
lemma foldl_cursor_le (A : Applier W) (ops : List Op) (s : OpenSCD W X)
    (h : s.editCount ≤ s.history.length) :
    (ops.foldl (applyOp A) s).editCount ≤ (ops.foldl (applyOp A) s).history.length := by
  induction ops generalizing s with
  | nil => exact h
  | cons op ops ih =>
    exact ih (applyOp A s op) (applyOp_cursor_le A s op h)

/-- Claim C2: from the initial state, any finite sequence of edit events, undos and
redos leaves the cursor within `[0, history.length]`: `editCount` always
bounds the applied prefix of the history. -/
theorem cursor_partitions_history (A : Applier W) (w : W) (ops : List Op) :
    (run A w ops : OpenSCD W X).editCount
      ≤ (run A w ops : OpenSCD W X).history.length := by
  exact foldl_cursor_le A ops (initState w) (Nat.le_refl 0)

/-- Claim C4: `undo()` at cursor 0 and `redo()` at cursor = history length leave the
whole state — history, cursor, version counter, document registry, active
name and document world — exactly unchanged. -/
theorem boundary_undo_redo_noop (A : Applier W) (s : OpenSCD W X) :
    (s.editCount = 0 → OpenSCD.undo A s 1 = s) ∧
    (s.editCount = s.history.length → OpenSCD.redo A s 1 = s) := by
  constructor
  · intro h0
    apply undo_succ_stop
    simp [OpenSCD.canUndo, OpenSCD.last, h0]
  · intro he
    apply redo_succ_stop
    simp [OpenSCD.canRedo, he]

/-- Witness for C4 at the empty initial state (cursor 0 and cursor = length
both hold there). -/
theorem boundary_undo_redo_noop_witness :
    OpenSCD.undo (fun w e => (w + 1, e)) (initState 0 : OpenSCD Nat Nat) 1
        = (initState 0 : OpenSCD Nat Nat) ∧
    OpenSCD.redo (fun w e => (w + 1, e)) (initState 0 : OpenSCD Nat Nat) 1
        = (initState 0 : OpenSCD Nat Nat) := by
  have h := boundary_undo_redo_noop (fun w e => (w + 1, e))
    (initState 0 : OpenSCD Nat Nat)
  exact ⟨h.1 rfl, h.2 rfl⟩

/-- Claim C5: `undo(n)` applies exactly `min n editCount` stored undo edits newest
first, decrementing the cursor and bumping the version once per step (hence a
no-op when the cursor is 0 or `n < 1`); `redo(n)` applies exactly
`min n (length - editCount)` stored redo edits, incrementing the cursor and
bumping the version once per step.  The history itself is untouched. -/
theorem undo_redo_step_counts (A : Applier W) (s : OpenSCD W X) (n : Nat) :
    (OpenSCD.undo A s n).history = s.history ∧
    (OpenSCD.undo A s n).editCount = s.editCount - min n s.editCount ∧
    (OpenSCD.undo A s n).docVersion = s.docVersion + min n s.editCount ∧
    (OpenSCD.undo A s n).world
      = applySeq A s.world (undoTargets s.history s.editCount (min n s.editCount)) ∧
    (OpenSCD.redo A s n).history = s.history ∧
    (OpenSCD.redo A s n).editCount
      = s.editCount + min n (s.history.length - s.editCount) ∧
    (OpenSCD.redo A s n).docVersion
      = s.docVersion + min n (s.history.length - s.editCount) ∧
    (OpenSCD.redo A s n).world
      = applySeq A s.world
          (redoTargets s.history s.editCount (min n (s.history.length - s.editCount))) := by
  obtain ⟨u1, -, -, u4, u5, u6⟩ := undo_spec A n s
  obtain ⟨r1, -, -, r4, r5, r6⟩ := redo_spec A n s
  exact ⟨u1, u4, u5, u6, r1, r4, r5, r6⟩

/-- Claim C7: when `docName` is non-empty but absent from the `docs` record, the
`doc` accessor yields no document (the JavaScript access yields `undefined`,
embedded as `none`) rather than an actual document. -/
theorem doc_accessor_not_found (s : OpenSCD W X)
    (_hname : s.docName ≠ "") (habs : s.docName ∉ s.docs.map Prod.fst) :
    OpenSCD.doc s = none :=
  lookup_eq_none_of_not_mem s.docs s.docName habs

/-- Witness for C7: a state whose active name is set but not registered. -/
theorem doc_accessor_not_found_witness :
    OpenSCD.doc
      ({ docName := "missing.scd", world := 0, docs := [("other.scd", 7)] } :
        OpenSCD Nat Nat) = none := by
  exact doc_accessor_not_found _ (by decide) (by simp)

/-! Helper lemmas about the squash combinators. -/

lemma squashUndo_concat (h : List LogEntry) (en : LogEntry) (u : EditV2) :
    OpenSCD.squashUndo (h ++ [en]) u = .complex (asList u ++ asList en.undo) := by
  simp only [OpenSCD.squashUndo, List.getLast?_concat]
  cases en.undo <;> cases u <;> simp [asList]

lemma squashRedo_concat (h : List LogEntry) (en : LogEntry) (e : EditV2) :
    OpenSCD.squashRedo (h ++ [en]) e = .complex (asList en.redo ++ asList e) := by
  simp only [OpenSCD.squashRedo, List.getLast?_concat]
  cases en.redo <;> cases e <;> simp [asList]

/-- Claim C1: appending edit A without squash and then edit B with squash replaces
the two would-be entries by a single one; its redo lists the redo edits of A
followed by those of B, and its undo lists the undo edits of B followed by
the undo edits of A (the inverses the applier returned for B and A). -/
theorem squash_correct (A : Applier W) (s s1 s2 : OpenSCD W X) (eA eB : EditV2)
    (tA tB : Option String)
    (h1 : s1 = OpenSCD.handleEditEventV2 A s eA tA false)
    (h2 : s2 = OpenSCD.handleEditEventV2 A s1 eB tB true) :
    s2.history.length = s1.history.length ∧
    ∃ en : LogEntry,
      s2.history = s1.history.dropLast ++ [en] ∧
      en.redo = .complex (asList eA ++ asList eB) ∧
      en.undo = .complex (asList (A s1.world eB).2 ++ asList (A s.world eA).2) ∧
      s2.editCount = s2.history.length := by
  subst h2
  have hhist : s1.history = s.history.take s.editCount ++
      [{ undo := (A s.world eA).2, redo := eA,
         title := jsOr tA ((s.history.take s.editCount).getLast?.bind LogEntry.title) }] := by
    rw [h1]; rfl
  have hec : s1.editCount = s1.history.length := by
    rw [h1]; rfl
  have htake : s1.history.take s1.editCount = s1.history := by
    rw [hec, List.take_length]
  simp only [OpenSCD.handleEditEventV2, if_true, htake]
  refine ⟨?_, ⟨_, rfl, ?_, ?_, ?_⟩⟩
  · rw [hhist]
    simp [List.dropLast_concat]
  · rw [hhist, squashRedo_concat]
  · rw [hhist, squashUndo_concat]
  · trivial

/-- Witness for C1 at a concrete state and two concrete edits. -/
theorem squash_correct_witness :
    (OpenSCD.handleEditEventV2 natApplier
        (OpenSCD.handleEditEventV2 natApplier sampleState (EditV2.atomic 2) (some "A") false)
        (EditV2.atomic 3) (some "B") true).history.length
      = (OpenSCD.handleEditEventV2 natApplier sampleState
          (EditV2.atomic 2) (some "A") false).history.length ∧
    ∃ en : LogEntry,
      (OpenSCD.handleEditEventV2 natApplier
          (OpenSCD.handleEditEventV2 natApplier sampleState (EditV2.atomic 2) (some "A") false)
          (EditV2.atomic 3) (some "B") true).history
        = (OpenSCD.handleEditEventV2 natApplier sampleState
            (EditV2.atomic 2) (some "A") false).history.dropLast ++ [en] ∧
      en.redo = .complex (asList (EditV2.atomic 2) ++ asList (EditV2.atomic 3)) ∧
      en.undo = .complex
        (asList (natApplier
            (OpenSCD.handleEditEventV2 natApplier sampleState
              (EditV2.atomic 2) (some "A") false).world (EditV2.atomic 3)).2
          ++ asList (natApplier sampleState.world (EditV2.atomic 2)).2) ∧
      (OpenSCD.handleEditEventV2 natApplier
          (OpenSCD.handleEditEventV2 natApplier sampleState (EditV2.atomic 2) (some "A") false)
          (EditV2.atomic 3) (some "B") true).editCount
        = (OpenSCD.handleEditEventV2 natApplier
            (OpenSCD.handleEditEventV2 natApplier sampleState (EditV2.atomic 2) (some "A") false)
            (EditV2.atomic 3) (some "B") true).history.length :=
  squash_correct natApplier sampleState _ _ (EditV2.atomic 2) (EditV2.atomic 3)
    (some "A") (some "B") rfl rfl

/-- Claim C3: after `undo(k)` left the cursor strictly inside the history, any
subsequent append first discards every entry at indices `>= editCount`
(squashing additionally merges into the last kept entry), then records the
new entry, leaves the cursor equal to the new length, and a following
`redo()` changes nothing: the discarded entries are unrecoverable. -/
theorem truncation_on_branch (A : Applier W) (s s1 : OpenSCD W X) (k : Nat)
    (_hk : 1 ≤ k) (_hinv : s.editCount ≤ s.history.length)
    (_h1 : s1 = OpenSCD.undo A s k)
    (hlt : s1.editCount < s1.history.length) :
    (∀ e : EditV2,
      (OpenSCD.handleEditEvent A s1 e).history
          = s1.history.take s1.editCount ++
            [{ undo := (A s1.world e).2, redo := e }] ∧
      (OpenSCD.handleEditEvent A s1 e).editCount
          = (OpenSCD.handleEditEvent A s1 e).history.length ∧
      OpenSCD.redo A (OpenSCD.handleEditEvent A s1 e) 1
          = OpenSCD.handleEditEvent A s1 e) ∧
    (∀ (e : EditV2) (t : Option String) (sq : Bool),
      (∃ en, (OpenSCD.handleEditEventV2 A s1 e t sq).history
          = (if sq then (s1.history.take s1.editCount).dropLast
             else s1.history.take s1.editCount) ++ [en]) ∧
      (OpenSCD.handleEditEventV2 A s1 e t sq).editCount
          = (OpenSCD.handleEditEventV2 A s1 e t sq).history.length ∧
      OpenSCD.redo A (OpenSCD.handleEditEventV2 A s1 e t sq) 1
          = OpenSCD.handleEditEventV2 A s1 e t sq) := by
  constructor
  · intro e
    refine ⟨rfl, ?_, ?_⟩
    · simp only [OpenSCD.handleEditEvent, List.length_append, List.length_take,
        List.length_cons, List.length_nil]
      omega
    · apply redo_succ_stop
      simp only [OpenSCD.canRedo, OpenSCD.handleEditEvent, List.length_append,
        List.length_take, List.length_cons, List.length_nil, decide_eq_false_iff_not]
      omega
  · intro e t sq
    refine ⟨?_, rfl, ?_⟩
    · cases sq with
      | false => exact ⟨_, rfl⟩
      | true => exact ⟨_, rfl⟩
    · apply redo_succ_stop
      simp [OpenSCD.canRedo, OpenSCD.handleEditEventV2]

/-- Witness for C3: two applied entries, one undo, then appends. -/
theorem truncation_on_branch_witness :
    OpenSCD.redo natApplier
        (OpenSCD.handleEditEvent natApplier
          (OpenSCD.undo natApplier sampleState 1) (EditV2.atomic 9)) 1
      = OpenSCD.handleEditEvent natApplier
          (OpenSCD.undo natApplier sampleState 1) (EditV2.atomic 9) ∧
    OpenSCD.redo natApplier
        (OpenSCD.handleEditEventV2 natApplier
          (OpenSCD.undo natApplier sampleState 1) (EditV2.atomic 9) none true) 1
      = OpenSCD.handleEditEventV2 natApplier
          (OpenSCD.undo natApplier sampleState 1) (EditV2.atomic 9) none true := by
  have h := truncation_on_branch natApplier sampleState
    (OpenSCD.undo natApplier sampleState 1) 1 (by decide) (by decide) rfl (by decide)
  exact ⟨(h.1 (EditV2.atomic 9)).2.2, (h.2 (EditV2.atomic 9) none true).2.2⟩

/-- Claim C6: from a state with cursor 0, appending an edit titled `add X` and then
squash-appending a second, untitled edit leaves exactly one history entry,
whose title `add X` was carried forward from the popped entry, with the
cursor at 1. -/
theorem squash_title_carry (A : Applier W) (s s1 s2 : OpenSCD W X) (e1 e2 : EditV2)
    (h0 : s.editCount = 0)
    (h1 : s1 = OpenSCD.handleEditEventV2 A s e1 (some "add X") false)
    (h2 : s2 = OpenSCD.handleEditEventV2 A s1 e2 none true) :
    s2.history.length = 1 ∧
    (s2.history.getD 0 default).title = some "add X" ∧
    s2.editCount = 1 := by
  subst h2 h1
  simp [OpenSCD.handleEditEventV2, h0, jsOr]

/-- Witness for C6 at a concrete state with cursor 0. -/
theorem squash_title_carry_witness :
    (OpenSCD.handleEditEventV2 natApplier
        (OpenSCD.handleEditEventV2 natApplier (initState 0 : OpenSCD Nat Nat)
          (EditV2.atomic 1) (some "add X") false)
        (EditV2.atomic 2) none true).history.length = 1 ∧
    ((OpenSCD.handleEditEventV2 natApplier
        (OpenSCD.handleEditEventV2 natApplier (initState 0 : OpenSCD Nat Nat)
          (EditV2.atomic 1) (some "add X") false)
        (EditV2.atomic 2) none true).history.getD 0 default).title = some "add X" ∧
    (OpenSCD.handleEditEventV2 natApplier
        (OpenSCD.handleEditEventV2 natApplier (initState 0 : OpenSCD Nat Nat)
          (EditV2.atomic 1) (some "add X") false)
        (EditV2.atomic 2) none true).editCount = 1 :=
  squash_title_carry natApplier (initState 0 : OpenSCD Nat Nat) _ _
    (EditV2.atomic 1) (EditV2.atomic 2) rfl rfl rfl

/-- Claim C9: with squash off and an absent or empty title, the newly pushed entry
inherits the title of the last entry of the truncated history: the title
fallback applies to every append, not only to squash appends. -/
theorem append_title_fallback (A : Applier W) (s : OpenSCD W X) (e : EditV2)
    (t : Option String) (enPrev : LogEntry)
    (ht : t = none ∨ t = some "")
    (hlast : (s.history.take s.editCount).getLast? = some enPrev) :
    ∃ en, (OpenSCD.handleEditEventV2 A s e t false).history.getLast? = some en ∧
      en.title = enPrev.title := by
  refine ⟨{ undo := (A s.world e).2, redo := e,
            title := jsOr t ((s.history.take s.editCount).getLast?.bind LogEntry.title) },
    ?_, ?_⟩
  · exact List.getLast?_concat _
  · simp only [hlast, Option.some_bind]
    rcases ht with h | h <;> subst h <;> simp [jsOr]

/-- Witness for C9: an untitled non-squash append after a titled entry. -/
theorem append_title_fallback_witness :
    (∃ en, (OpenSCD.handleEditEventV2 natApplier sampleState
        (EditV2.atomic 7) none false).history.getLast? = some en ∧
      en.title = (sampleEntry 1).title) :=
  append_title_fallback natApplier sampleState (EditV2.atomic 7) none
    (sampleEntry 1) (Or.inl rfl) rfl

/-- Claim C10: squash-appending while the truncated history is empty succeeds:
`squashUndo` and `squashRedo` return their argument unchanged, nothing is
popped, and the single pushed entry holds the uncombined computed undo edit
and the given edit, with the cursor at 1. -/
theorem squash_empty_history (A : Applier W) (s : OpenSCD W X) (e : EditV2)
    (t : Option String) (h0 : s.editCount = 0) :
    OpenSCD.squashUndo (s.history.take s.editCount) (A s.world e).2
        = (A s.world e).2 ∧
    OpenSCD.squashRedo (s.history.take s.editCount) e = e ∧
    (OpenSCD.handleEditEventV2 A s e t true).history
        = [{ undo := (A s.world e).2, redo := e, title := jsOr t none }] ∧
    (OpenSCD.handleEditEventV2 A s e t true).editCount = 1 := by
  simp [OpenSCD.handleEditEventV2, OpenSCD.squashUndo, OpenSCD.squashRedo, h0]

/-- Witness for C10: a squash append on the fresh initial state. -/
theorem squash_empty_history_witness :
    OpenSCD.squashUndo
        ((initState 0 : OpenSCD Nat Nat).history.take
          (initState 0 : OpenSCD Nat Nat).editCount)
        (natApplier (initState 0 : OpenSCD Nat Nat).world (EditV2.atomic 4)).2
      = (natApplier (initState 0 : OpenSCD Nat Nat).world (EditV2.atomic 4)).2 ∧
    OpenSCD.squashRedo
        ((initState 0 : OpenSCD Nat Nat).history.take
          (initState 0 : OpenSCD Nat Nat).editCount) (EditV2.atomic 4)
      = EditV2.atomic 4 ∧
    (OpenSCD.handleEditEventV2 natApplier (initState 0 : OpenSCD Nat Nat)
        (EditV2.atomic 4) (some "t") true).history
      = [{ undo := (natApplier (initState 0 : OpenSCD Nat Nat).world (EditV2.atomic 4)).2,
           redo := EditV2.atomic 4, title := jsOr (some "t") none }] ∧
    (OpenSCD.handleEditEventV2 natApplier (initState 0 : OpenSCD Nat Nat)
        (EditV2.atomic 4) (some "t") true).editCount = 1 :=
  squash_empty_history natApplier (initState 0 : OpenSCD Nat Nat)
    (EditV2.atomic 4) (some "t") rfl

/-! Helper lemmas about the plugin registry. -/

lemma lookup_eq_none_of_countP_zero {β : Type v} (l : List (String × β)) (a : String)
    (hc : l.countP (fun en => en.1 == a) = 0) : l.lookup a = none := by
  induction l with
  | nil => rfl
  | cons x xs ih =>
    simp only [List.countP_cons] at hc
    by_cases hb : (x.1 == a) = true
    · simp [hb] at hc
    · simp only [Bool.not_eq_true] at hb
      have hb2 : (a == x.1) = false := by
        simp only [beq_eq_false_iff_ne, ne_eq] at hb ⊢
        exact fun hx => hb hx.symm
      simp only [List.lookup, hb2]
      apply ih
      simpa [hb] using hc

lemma pluginTag_lookup_self (h : String → String) (tags : List (String × String))
    (uri : String) :
    (pluginTag h tags uri).1.lookup uri = some (pluginTag h tags uri).2 := by
  cases hl : tags.lookup uri with
  | some t => simp [pluginTag, hl]
  | none =>
    have hap : (tags ++ [(uri, "oscd-p" ++ h uri)]).lookup uri
        = some ("oscd-p" ++ h uri) := by
      rw [lookup_append_of_none _ _ _ hl]
      exact lookup_singleton_self _ _
    simp [pluginTag, hl, hap]

lemma pluginTag_stable (h : String → String) (tags : List (String × String))
    (uri : String) :
    pluginTag h (pluginTag h tags uri).1 uri
      = ((pluginTag h tags uri).1, (pluginTag h tags uri).2) := by
  cases hl : tags.lookup uri with
  | some t => simp [pluginTag, hl]
  | none =>
    have hap : (tags ++ [(uri, "oscd-p" ++ h uri)]).lookup uri
        = some ("oscd-p" ++ h uri) := by
      rw [lookup_append_of_none _ _ _ hl]
      exact lookup_singleton_self _ _
    simp [pluginTag, hl, hap]

lemma loadPlugin_pluginTags (h : String → String) (st : PluginState) (p : Plugin) :
    (loadPlugin h st p).pluginTags = (pluginTag h st.pluginTags p.src).1 := by
  simp only [loadPlugin]
  split
  · rfl
  · split <;> rfl

lemma loadPlugin_loaded_already (h : String → String) (st : PluginState) (p : Plugin)
    (hsome : (st.loadedPlugins.lookup (pluginTag h st.pluginTags p.src).2).isSome = true) :
    loadPlugin h st p = { st with pluginTags := (pluginTag h st.pluginTags p.src).1 } := by
  simp only [loadPlugin]
  simp [hsome]

lemma loadPlugin_new_effect (h : String → String) (st : PluginState) (p : Plugin)
    (hnone : st.loadedPlugins.lookup (pluginTag h st.pluginTags p.src).2 = none) :
    (loadPlugin h st p).loadedPlugins
        = st.loadedPlugins ++ [((pluginTag h st.pluginTags p.src).2, p)] ∧
    ((loadPlugin h st p).imports = st.imports ∨
      (loadPlugin h st p).imports
        = st.imports ++ [(pluginTag h st.pluginTags p.src).2]) := by
  simp only [loadPlugin, hnone, Option.isSome_none, Bool.false_eq_true, if_false]
  constructor
  · split <;> rfl
  · split
    · exact Or.inl rfl
    · exact Or.inr rfl

lemma loadPlugin_lookup_isSome (h : String → String) (st : PluginState) (p : Plugin) :
    ((loadPlugin h st p).loadedPlugins.lookup
        (pluginTag h st.pluginTags p.src).2).isSome = true := by
  cases hs : st.loadedPlugins.lookup (pluginTag h st.pluginTags p.src).2 with
  | some v =>
    rw [loadPlugin_loaded_already h st p (by simp [hs])]
    simp [hs]
  | none =>
    obtain ⟨hl, -⟩ := loadPlugin_new_effect h st p hs
    rw [hl, lookup_append_of_none _ _ _ hs, lookup_singleton_self]
    rfl

lemma loadPlugin_noop (h : String → String) (st2 : PluginState) (q : Plugin)
    (tg : String)
    (hpt : pluginTag h st2.pluginTags q.src = (st2.pluginTags, tg))
    (hsome : (st2.loadedPlugins.lookup tg).isSome = true) :
    loadPlugin h st2 q = st2 := by
  simp only [loadPlugin, hpt]
  simp [hsome]

lemma loadPlugin_idem (h : String → String) (st : PluginState) (p q : Plugin)
    (hsrc : p.src = q.src) :
    loadPlugin h (loadPlugin h st p) q = loadPlugin h st p := by
  apply loadPlugin_noop h (loadPlugin h st p) q (pluginTag h st.pluginTags p.src).2
  · rw [← hsrc, loadPlugin_pluginTags, pluginTag_stable]
  · exact loadPlugin_lookup_isSome h st p

/-- Claim C8: `pluginTag` returns the same tag (and leaves the memo map unchanged)
on a repeated call for the same `src`; loading two plugins with the same `src`
makes the second `loadPlugin` a complete no-op, leaves exactly one entry for
the tag in `loadedPlugins` (when the tag was not loaded before), and triggers
at most one dynamic module import for the tag. -/
theorem plugin_tag_stable_dedup (h : String → String) (st : PluginState)
    (p q : Plugin) (hsrc : p.src = q.src) :
    pluginTag h (pluginTag h st.pluginTags p.src).1 p.src
        = ((pluginTag h st.pluginTags p.src).1, (pluginTag h st.pluginTags p.src).2) ∧
    loadPlugin h (loadPlugin h st p) q = loadPlugin h st p ∧
    (st.loadedPlugins.countP
        (fun en => en.1 == (pluginTag h st.pluginTags p.src).2) = 0 →
      (loadPlugin h (loadPlugin h st p) q).loadedPlugins.countP
          (fun en => en.1 == (pluginTag h st.pluginTags p.src).2) = 1) ∧
    (st.imports.count (pluginTag h st.pluginTags p.src).2 = 0 →
      (loadPlugin h (loadPlugin h st p) q).imports.count
          (pluginTag h st.pluginTags p.src).2 ≤ 1) := by
  have hidem := loadPlugin_idem h st p q hsrc
  refine ⟨pluginTag_stable h st.pluginTags p.src, hidem, ?_, ?_⟩
  · intro hc
    have hnone : st.loadedPlugins.lookup (pluginTag h st.pluginTags p.src).2 = none :=
      lookup_eq_none_of_countP_zero _ _ hc
    obtain ⟨hl, -⟩ := loadPlugin_new_effect h st p hnone
    rw [hidem, hl]
    simp [List.countP_append, List.countP_cons, hc]
  · intro hi
    rw [hidem]
    cases hs : st.loadedPlugins.lookup (pluginTag h st.pluginTags p.src).2 with
    | some v =>
      rw [loadPlugin_loaded_already h st p (by simp [hs])]
      simp [hi]
    | none =>
      obtain ⟨-, him⟩ := loadPlugin_new_effect h st p hs
      rcases him with he | he <;> rw [he] <;> simp [List.count_append, hi, List.count_cons]

/-- Witness for C8: loading the same concrete plugin twice from an empty
registry. -/
theorem plugin_tag_stable_dedup_witness :
    pluginTag (fun u => u) (pluginTag (fun u => u) emptyPluginState.pluginTags "a.js").1 "a.js"
        = ((pluginTag (fun u => u) emptyPluginState.pluginTags "a.js").1,
           (pluginTag (fun u => u) emptyPluginState.pluginTags "a.js").2) ∧
    loadPlugin (fun u => u)
        (loadPlugin (fun u => u) emptyPluginState { name := "P", src := "a.js", icon := "i" })
        { name := "P", src := "a.js", icon := "i" }
      = loadPlugin (fun u => u) emptyPluginState { name := "P", src := "a.js", icon := "i" } ∧
    (emptyPluginState.loadedPlugins.countP
        (fun en => en.1 == (pluginTag (fun u => u) emptyPluginState.pluginTags "a.js").2) = 0 →
      (loadPlugin (fun u => u)
          (loadPlugin (fun u => u) emptyPluginState { name := "P", src := "a.js", icon := "i" })
          { name := "P", src := "a.js", icon := "i" }).loadedPlugins.countP
          (fun en => en.1 == (pluginTag (fun u => u) emptyPluginState.pluginTags "a.js").2) = 1) ∧
    (emptyPluginState.imports.count
        (pluginTag (fun u => u) emptyPluginState.pluginTags "a.js").2 = 0 →
      (loadPlugin (fun u => u)
          (loadPlugin (fun u => u) emptyPluginState { name := "P", src := "a.js", icon := "i" })
          { name := "P", src := "a.js", icon := "i" }).imports.count
          (pluginTag (fun u => u) emptyPluginState.pluginTags "a.js").2 ≤ 1) :=
  plugin_tag_stable_dedup (fun u => u) emptyPluginState
    { name := "P", src := "a.js", icon := "i" }
    { name := "P", src := "a.js", icon := "i" } rfl

end OscdCore
